import Mathlib

/-!
# Verification of the cargo-play scaffolding pipeline (`src/steps.rs`)

A shallow embedding of the functions in `src/steps.rs`:

* `extract_headers` — directive extraction from file contents;
* `rmtemp` / `mktemp` — scratch-directory lifecycle;
* `copy_sources` — relative-path-preserving source placement
  (with `pathdiff::diff_paths` embedded from its source);
* `run_cargo_build` — cargo invocation and exit-status propagation;
* `copy_project` — project export.

Paths are modelled as a flag for absoluteness plus a list of components
(mirroring `std::path::Component`: `ParentDir`, `CurDir`, normal names).
The filesystem is modelled as a finite map from paths to file contents plus
a set of directories; a set of `locked` paths models external failures
(permissions and the like) so that every operation has a non-trivial error
case.  Operations additionally record the syscalls they issue in a log, so
that "copies A to B" claims can be stated about the operations performed,
not merely about final contents.
-/

/-- A path component, mirroring `std::path::Component` (prefix components
are not modelled; the tool never constructs them). -/
inductive Comp where
  | parentDir : Comp
  | curDir : Comp
  | normal : String → Comp
deriving DecidableEq, Repr

/-- A path: whether it is absolute, plus its components in order. -/
structure RPath where
  absolute : Bool
  comps : List Comp
deriving DecidableEq, Repr

/-- A relative path from a component list. -/
def relp (cs : List Comp) : RPath := ⟨false, cs⟩

/-- `Path::join`: appending an absolute path replaces the receiver. -/
def RPath.join (p q : RPath) : RPath :=
  if q.absolute then q else ⟨p.absolute, p.comps ++ q.comps⟩

/-- `Path::parent`: `none` for an empty path or a bare root, otherwise the
path with its last component removed. -/
def RPath.parent (p : RPath) : Option RPath :=
  match p.comps with
  | [] => none
  | _ => some ⟨p.absolute, p.comps.dropLast⟩

/-- The loop of `pathdiff::diff_paths`, embedded from the crate source:
`ita`/`itb` are the remaining components of the path and the base, `comps`
is the accumulator.  Once the path side is exhausted the original loop only
keeps pushing `ParentDir` for each remaining base component; that tail is
unrolled here so the recursion is structural. -/
def diffLoop : List Comp → List Comp → List Comp → Option (List Comp)
  | [], itb, comps => some (comps ++ itb.map fun _ => Comp.parentDir)
  | a :: ta, [], comps => some (comps ++ a :: ta)
  | a :: ta, b :: tb, comps =>
    if comps.isEmpty ∧ a = b then diffLoop ta tb comps
    else if b = Comp.curDir then diffLoop ta tb (comps ++ [a])
    else if b = Comp.parentDir then none
    else some (comps ++ Comp.parentDir :: (tb.map fun _ => Comp.parentDir) ++ a :: ta)

/-- `pathdiff::diff_paths path base`: the relative path from `base` to
`path`, when one exists. -/
def diff_paths (path base : RPath) : Option RPath :=
  if path.absolute ≠ base.absolute then
    if path.absolute then some path else none
  else
    (diffLoop path.comps base.comps []).map fun cs => relp cs

/-- Rust `str::lines`, accumulating the current line in reverse: lines are
split at `\n`; a line terminated by `\n` drops one immediately-preceding
`\r`; a final unterminated fragment is kept as is; a final empty fragment
(the string ended with a newline, or was empty) is dropped. -/
def linesAux : List Char → List Char → List (List Char)
  | [], acc => if acc.isEmpty then [] else [acc.reverse]
  | c :: rest, acc =>
    if c = '\n' then
      (match acc with
        | '\r' :: acc2 => acc2.reverse
        | _ => acc.reverse) :: linesAux rest []
    else linesAux rest (c :: acc)

/-- Rust `str::lines`, each line as its characters. -/
def lines (s : String) : List (List Char) := linesAux s.data []

/-- Rust `str::starts_with` on a line. -/
def lineStarts (line pre : List Char) : Bool := pre.isPrefixOf line

/-- Strip the three-character `//#` prefix, trim leading whitespace
(`&line[3..].trim_start()`), and pack the directive into a string. -/
def stripDirective (line : List Char) : String :=
  String.mk ((line.drop 3).dropWhile Char.isWhitespace)

/-- `extract_headers` from `src/steps.rs`: per file, skip lines while they
start with `#!` or are empty, take lines while they start with `//#`, strip
the three-byte prefix, trim leading whitespace, drop empties; flatten. -/
def extract_headers (files : List String) : List String :=
  (files.map fun file =>
    ((((lines file).dropWhile fun line =>
            lineStarts line ['#', '!'] || line.isEmpty).takeWhile fun line =>
          lineStarts line ['/', '/', '#']).map fun line =>
        stripDirective line).filter fun s => s ≠ "").flatten

/-- Spec-side rendering of the claim for `extract_headers`, following the
claim words literally: skip one optional leading interpreter marker line,
then any immediately-following blank lines, then take `//#` lines, strip,
trim, drop empties, flatten. -/
def extract_headers_claimed (files : List String) : List String :=
  (files.map fun file =>
    let ls := lines file
    let ls := match ls with
      | [] => []
      | l :: rest => if lineStarts l ['#', '!'] then rest else l :: rest
    let ls := ls.dropWhile fun line => line.isEmpty
    ((ls.takeWhile fun line => lineStarts line ['/', '/', '#']).map fun line =>
        stripDirective line).filter fun s => s ≠ "").flatten

/-- The preamble skip as the amended claim words it: drop every leading
line that is an interpreter marker or blank, whatever their order. -/
def skipPreamble : List (List Char) → List (List Char)
  | [] => []
  | l :: rest =>
    if lineStarts l ['#', '!'] || l.isEmpty then skipPreamble rest
    else l :: rest

/-- Directive collection as the amended claim words it: take `//#` lines
until the first other line, strip the prefix, trim, keep non-empty. -/
def collectDirectives : List (List Char) → List String
  | [] => []
  | l :: rest =>
    if lineStarts l ['/', '/', '#'] then
      let d := stripDirective l
      if d = "" then collectDirectives rest else d :: collectDirectives rest
    else []

/-- Spec-side rendering of the amended claim for `extract_headers`. -/
def extract_headers_amended (files : List String) : List String :=
  (files.map fun f => collectDirectives (skipPreamble (lines f))).flatten

/-- Kinds of I/O errors the model distinguishes. -/
inductive IoErrorKind where
  | alreadyExists : IoErrorKind
  | notFound : IoErrorKind
  | other : IoErrorKind
deriving DecidableEq, Repr

/-- The error type of `src/errors.rs` restricted to the variants `steps.rs`
produces. -/
inductive CargoPlayError where
  | io : IoErrorKind → CargoPlayError
  | diffPathError : RPath → CargoPlayError
  | pathExistError : RPath → CargoPlayError
deriving DecidableEq, Repr

deriving instance DecidableEq for Except

/-- Model filesystem: files (path to content id), directories, and `locked`
paths on which every operation fails (modelling permission errors and other
external failures). -/
structure FS where
  files : List (RPath × Nat)
  dirs : List RPath
  locked : List RPath
deriving DecidableEq, Repr

/-- Look up a file.  A path with no components can never name a file. -/
def FS.lookupFile (fs : FS) (p : RPath) : Option Nat :=
  if p.comps.isEmpty then none
  else (fs.files.find? fun e => e.1 = p).map fun e => e.2

/-- Whether `p` is a file. -/
def FS.isFileB (fs : FS) (p : RPath) : Bool := (fs.lookupFile p).isSome

/-- Whether `p` is a directory; the root / current directory (no
components) always exists. -/
def FS.isDirB (fs : FS) (p : RPath) : Bool :=
  p.comps.isEmpty || fs.dirs.contains p

/-- Whether an operation on `p` fails for an external reason. -/
def FS.isLocked (fs : FS) (p : RPath) : Bool := fs.locked.contains p

/-- Write (create or overwrite) a file; the new entry shadows any earlier
entry for the same path, since `lookupFile` takes the first match. -/
def FS.setFile (fs : FS) (p : RPath) (d : Nat) : FS :=
  { fs with files := (p, d) :: fs.files }

/-- All the ancestor paths of `p`, from the root down to `p` itself. -/
def RPath.ancestors (p : RPath) : List RPath :=
  (List.range (p.comps.length + 1)).map fun i => ⟨p.absolute, p.comps.take i⟩

/-- `std::fs::create_dir_all`: succeeds when the directory already exists,
creates all missing intermediate directories; fails when some ancestor is
locked or is an existing file. -/
def FS.create_dir_all (fs : FS) (p : RPath) : Except IoErrorKind FS :=
  if p.ancestors.any fun q => fs.isLocked q || fs.isFileB q then
    .error .other
  else
    .ok { fs with dirs := fs.dirs ++ p.ancestors.filter fun q => ¬fs.isDirB q }

/-- `std::fs::create_dir` (non-recursive): fails on a locked path, on an
existing file or directory (`AlreadyExists`), or on a missing parent
directory (`NotFound`). -/
def FS.create_dir (fs : FS) (p : RPath) : Except IoErrorKind FS :=
  if fs.isLocked p then .error .other
  else if fs.isDirB p || fs.isFileB p then .error .alreadyExists
  else if ¬fs.isDirB ⟨p.absolute, p.comps.dropLast⟩ then .error .notFound
  else .ok { fs with dirs := fs.dirs ++ [p] }

/-- Whether `q` lies at or below `p` (same absoluteness, `p.comps` a prefix). -/
def RPath.under (p q : RPath) : Bool :=
  q.absolute = p.absolute && p.comps.isPrefixOf q.comps

/-- `std::fs::remove_dir_all`: fails on a locked path, on a path that is a
file, or on a missing directory (`NotFound`); otherwise removes the
directory and everything under it. -/
def FS.remove_dir_all (fs : FS) (p : RPath) : Except IoErrorKind FS :=
  if fs.isLocked p then .error .other
  else if fs.isFileB p then .error .other
  else if ¬(fs.dirs.contains p) then .error .notFound
  else
    .ok { fs with
          files := fs.files.filter fun e => ¬(p.under e.1 = true),
          dirs := fs.dirs.filter fun q => ¬(p.under q = true) }

/-- `std::fs::copy src dst`: fails on a locked endpoint, a missing source
file, an empty destination path, or a missing destination parent directory;
otherwise writes the source bytes at the destination. -/
def FS.copyFile (fs : FS) (src dst : RPath) : Except IoErrorKind FS :=
  if fs.isLocked src || fs.isLocked dst then .error .other
  else
    match fs.lookupFile src with
    | none => .error .notFound
    | some d =>
      if dst.comps.isEmpty then .error .other
      else if ¬fs.isDirB ⟨dst.absolute, dst.comps.dropLast⟩ then .error .notFound
      else .ok (fs.setFile dst d)

/-- A filesystem operation, as issued by the code (the syscall log). -/
inductive FsOp where
  | createDirAll : RPath → FsOp
  | copyFile : RPath → RPath → FsOp
deriving DecidableEq, Repr

/-- The world as the pipeline sees it: the filesystem plus the log of
operations issued so far. -/
structure FsState where
  fs : FS
  log : List FsOp
deriving DecidableEq, Repr

/-- Issue a `create_dir_all` syscall: the world always records the call;
the filesystem changes only on success. -/
def stepCreateDirAll (s : FsState) (p : RPath) : FsState × Except IoErrorKind Unit :=
  match s.fs.create_dir_all p with
  | .ok fs2 => (⟨fs2, s.log ++ [.createDirAll p]⟩, .ok ())
  | .error e => (⟨s.fs, s.log ++ [.createDirAll p]⟩, .error e)

/-- Issue a `copy` syscall: the world always records the call; the
filesystem changes only on success. -/
def stepCopy (s : FsState) (src dst : RPath) : FsState × Except IoErrorKind Unit :=
  match s.fs.copyFile src dst with
  | .ok fs2 => (⟨fs2, s.log ++ [.copyFile src dst]⟩, .ok ())
  | .error e => (⟨s.fs, s.log ++ [.copyFile src dst]⟩, .error e)

/-- `rmtemp` from `src/steps.rs`: `let _ = std::fs::remove_dir_all(temp);`
— the result is deliberately discarded, so the caller always gets the
(possibly unchanged) world back and never an error. -/
def rmtemp (fs : FS) (temp : RPath) : FS :=
  match fs.remove_dir_all temp with
  | .ok fs2 => fs2
  | .error _ => fs

/-- `mktemp` from `src/steps.rs`: `if create_dir(temp).is_err() { debug! }`
— any creation failure is only logged; the function returns no error. -/
def mktemp (fs : FS) (temp : RPath) : FS :=
  match fs.create_dir temp with
  | .ok fs2 => fs2
  | .error _ => fs

/-- The fixed `src` component. -/
def srcDirPath : RPath := relp [Comp.normal "src"]

/-- The fixed entry-point filename. -/
def mainRsPath : RPath := relp [Comp.normal "main.rs"]

/-- The `if let Some(parent) = dst.parent() { let _ = create_dir_all(parent); }`
step of `copy_sources`: ensure the destination's parent directories exist,
deliberately discarding any error. -/
def ensureParent (s : FsState) (dst : RPath) : FsState :=
  match dst.parent with
  | some par => (stepCreateDirAll s par).1
  | none => s

/-- The per-secondary-file loop body and recursion of `copy_sources`:
for each remaining file, compute `diff_paths file base` (failing with
`DiffPathError file` when it is `none`), ensure the destination's parent
directories exist (errors ignored, as in the source), and copy; the first
copy error aborts the traversal. -/
def copySecondaries (s : FsState) (destination base : RPath) :
    List RPath → FsState × Except CargoPlayError Unit
  | [] => (s, .ok ())
  | file :: files =>
    match diff_paths file base with
    | none => (s, .error (.diffPathError file))
    | some part =>
      let dst := destination.join part
      match stepCopy (ensureParent s dst) file dst with
      | (s2, .error e) => (s2, .error (.io e))
      | (s2, .ok ()) => copySecondaries s2 destination base files

/-- `copy_sources` from `src/steps.rs`: create `temp/src`, copy the first
source to `temp/src/main.rs`, then place every remaining source at the path
computed by `diff_paths` relative to the first source's parent directory. -/
def copy_sources (s : FsState) (temp : RPath) (sources : List RPath) :
    FsState × Except CargoPlayError Unit :=
  let destination := temp.join srcDirPath
  match stepCreateDirAll s destination with
  | (s, .error e) => (s, .error (.io e))
  | (s, .ok ()) =>
    match sources with
    | [] => (s, .ok ())
    | first :: rest =>
      match stepCopy s first (destination.join mainRsPath) with
      | (s, .error e) => (s, .error (.io e))
      | (s, .ok ()) =>
        match first.parent with
        | none => (s, .ok ())
        | some base => copySecondaries s destination base rest

/-- Render a path as the string handed to the child process. -/
def Comp.render : Comp → String
  | .parentDir => ".."
  | .curDir => "."
  | .normal s => s

/-- Render a path as the string handed to the child process. -/
def RPath.render (p : RPath) : String :=
  (if p.absolute then "/" else "") ++ String.intercalate "/" (p.comps.map Comp.render)

/-- A child-process command: program name and argument list. -/
structure Cmd where
  program : String
  args : List String
deriving DecidableEq, Repr

/-- `Command::arg`. -/
def Cmd.arg (c : Cmd) (a : String) : Cmd := { c with args := c.args ++ [a] }

/-- `Command::args`. -/
def Cmd.argList (c : Cmd) (l : List String) : Cmd := { c with args := c.args ++ l }

/-- Rust ASCII whitespace (`char::is_ascii_whitespace`). -/
def isAsciiWs (c : Char) : Bool :=
  c = ' ' || c = '\t' || c = '\n' || c = '\x0c' || c = '\r'

/-- Rust `str::split_ascii_whitespace`, accumulating the current token in
reverse: split on runs of ASCII whitespace, yielding the non-empty pieces. -/
def splitWsAux : List Char → List Char → List String
  | [], acc => if acc.isEmpty then [] else [String.mk acc.reverse]
  | c :: rest, acc =>
    if isAsciiWs c then
      if acc.isEmpty then splitWsAux rest []
      else String.mk acc.reverse :: splitWsAux rest []
    else splitWsAux rest (c :: acc)

/-- Rust `str::split_ascii_whitespace`. -/
def split_ascii_whitespace (s : String) : List String := splitWsAux s.data []

/-- The `cargo` command `run_cargo_build` builds, mirroring the sequence of
`arg`/`args` calls in `src/steps.rs`. -/
def build_cargo_command (toolchain : Option String) (project : RPath)
    (release : Bool) (cargo_option : Option String)
    (program_args : List String) : Cmd :=
  let cargo : Cmd := ⟨"cargo", []⟩
  let cargo := match toolchain with
    | some t => cargo.arg ("+" ++ t)
    | none => cargo
  let cargo := ((cargo.arg "run").arg "--manifest-path").arg
    (project.join (relp [Comp.normal "Cargo.toml"])).render
  let cargo := match cargo_option with
    | some o => cargo.argList (split_ascii_whitespace o)
    | none => cargo
  let cargo := if release then cargo.arg "--release" else cargo
  (cargo.arg "--").argList program_args

/-- The process environment: what spawning a command yields — a launch
failure, or the exit status of the finished child. -/
structure ProcEnv where
  launch : Cmd → Except IoErrorKind Int

/-- `run_cargo_build` from `src/steps.rs`: build the `cargo` command, run
it with inherited streams, and return its exit status; only the spawn
failure becomes an error. -/
def run_cargo_build (env : ProcEnv) (toolchain : Option String)
    (project : RPath) (release : Bool) (cargo_option : Option String)
    (program_args : List String) : Except CargoPlayError Int :=
  match env.launch (build_cargo_command toolchain project release cargo_option program_args) with
  | .ok status => .ok status
  | .error e => .error (.io e)

/-- The outcome of a call that can also panic (`unwrap`). -/
inductive POutcome (α : Type) where
  | ok : α → POutcome α
  | error : CargoPlayError → POutcome α
  | panicked : POutcome α
deriving DecidableEq, Repr

/-- `Path::canonicalize` in the model: succeeds exactly when the path
exists (as a file or directory); resolution itself is abstracted. -/
def canonicalize (fs : FS) (p : RPath) : Option RPath :=
  if fs.isFileB p || fs.isDirB p then some p else none

/-- The environment of `copy_project`: the current filesystem and the
behaviour of the external `cp` process — a launch failure, or an exit
status together with the filesystem `cp` leaves behind. -/
structure CpEnv where
  fs : FS
  runCp : Cmd → Except IoErrorKind (Int × FS)

/-- `copy_project` from `src/steps.rs`: refuse an existing *directory*
destination, then run `cp -R from to`; on a finished `cp` it prints the
`unwrap`ped canonicalized destination — a panic when the destination does
not exist — and returns the exit status. -/
def copy_project (env : CpEnv) (fromPath toPath : RPath) : POutcome Int × FS :=
  if env.fs.isDirB toPath then
    (.error (.pathExistError toPath), env.fs)
  else
    match env.runCp ⟨"cp", ["-R", fromPath.render, toPath.render]⟩ with
    | .error e => (.error (.io e), env.fs)
    | .ok (status, fs2) =>
      match canonicalize fs2 toPath with
      | some _ => (.ok status, fs2)
      | none => (.panicked, fs2)

/-- Concrete scenario for witnesses: entry point `a/main.rs`. -/
def entryPath : RPath := relp [Comp.normal "a", Comp.normal "main.rs"]

/-- Concrete scenario for witnesses: secondary source `a/b/util.rs`. -/
def utilPath : RPath := relp [Comp.normal "a", Comp.normal "b", Comp.normal "util.rs"]

/-- Concrete scenario for witnesses: a source path `a/gone.rs` that does
not exist on the filesystem. -/
def gonePath : RPath := relp [Comp.normal "a", Comp.normal "gone.rs"]

/-- Concrete scenario for witnesses: scratch directory `tmp/play`. -/
def scratchPath : RPath := relp [Comp.normal "tmp", Comp.normal "play"]

/-- Concrete scenario for witnesses: a world holding the two sources. -/
def demoState : FsState := ⟨⟨[(entryPath, 1), (utilPath, 2)], [], []⟩, []⟩

/-! ## Theorems -/

theorem skipPreamble_eq_dropWhile (ls : List (List Char)) :
    skipPreamble ls =
      ls.dropWhile fun line => lineStarts line ['#', '!'] || line.isEmpty := by
  induction ls with
  | nil => rfl
  | cons l rest ih =>
    by_cases h : (lineStarts l ['#', '!'] || l.isEmpty) = true
    · simp [skipPreamble, List.dropWhile, h, ih]
    · simp only [Bool.not_eq_true] at h
      simp [skipPreamble, List.dropWhile, h]

theorem collectDirectives_eq (ls : List (List Char)) :
    collectDirectives ls =
      ((ls.takeWhile fun line => lineStarts line ['/', '/', '#']).map fun line =>
          stripDirective line).filter fun s => s ≠ "" := by
  induction ls with
  | nil => rfl
  | cons l rest ih =>
    by_cases h : lineStarts l ['/', '/', '#'] = true
    · by_cases h2 : stripDirective l = ""
      · simp [collectDirectives, List.takeWhile_cons, h, h2, ih]
      · simp [collectDirectives, List.takeWhile_cons, h, h2, ih]
    · simp only [Bool.not_eq_true] at h
      simp [collectDirectives, List.takeWhile_cons, h]

/-- **C2** (counterexample).  The claim describes the preamble as one
optional leading `#!` line followed by blank lines; the code instead skips
every leading line that is a `#!` marker or blank.  On a file whose first
two lines are both `#!` markers the code still extracts the directive,
while the claimed description extracts nothing. -/
theorem extract_headers_claim_counterexample :
    extract_headers ["#!a\n#!b\n//#x"] = ["x"] ∧
      extract_headers_claimed ["#!a\n#!b\n//#x"] = [] := by
  constructor <;> decide

/-- **C2** (amended).  `extract_headers` processes each file independently
by skipping all leading lines that are an interpreter marker (`#!`) or
blank, in any order, then taking lines while they start with `//#`,
stopping at the first non-matching line; each taken line has the prefix
stripped and leading whitespace trimmed, empty results are discarded, and
the per-file results are concatenated in input order, never failing. -/
theorem extract_headers_eq_amended (files : List String) :
    extract_headers files = extract_headers_amended files := by
  have h : ∀ f : String,
      collectDirectives (skipPreamble (lines f)) =
        ((((lines f).dropWhile fun line =>
              lineStarts line ['#', '!'] || line.isEmpty).takeWhile fun line =>
            lineStarts line ['/', '/', '#']).map fun line =>
          stripDirective line).filter fun s => s ≠ "" := by
    intro f
    rw [skipPreamble_eq_dropWhile, collectDirectives_eq]
  unfold extract_headers extract_headers_amended
  simp only [h]

theorem create_dir_exists_error (fs : FS) (p : RPath) (h : fs.isDirB p = true) :
    ∃ e, fs.create_dir p = .error e := by
  unfold FS.create_dir
  by_cases hl : fs.isLocked p = true
  · exact ⟨.other, by simp [hl]⟩
  · simp only [Bool.not_eq_true] at hl
    exact ⟨.alreadyExists, by simp [hl, h]⟩

/-- **C5** (counterexample).  On an empty filesystem, creating `a/b` fails
with `NotFound` (the parent is missing), not with a collision; yet `mktemp`
returns normally with the filesystem unchanged — the failure is not
propagated to the caller, contradicting the claim that every non-collision
filesystem failure is propagated. -/
theorem mktemp_propagation_counterexample :
    FS.create_dir ⟨[], [], []⟩ (relp [Comp.normal "a", Comp.normal "b"]) =
        .error .notFound ∧
      IoErrorKind.notFound ≠ IoErrorKind.alreadyExists ∧
      mktemp ⟨[], [], []⟩ (relp [Comp.normal "a", Comp.normal "b"]) =
        ⟨[], [], []⟩ := by
  exact ⟨by decide, by decide, by decide⟩

/-- **C5** (amended).  Scratch-directory creation (`mktemp`) succeeds
without error when the directory already exists (collision only logged),
and likewise swallows every other filesystem failure, leaving the
filesystem unchanged; no failure is ever propagated to the caller. -/
theorem mktemp_swallows_failures (fs : FS) (temp : RPath) :
    (fs.isDirB temp = true → mktemp fs temp = fs) ∧
    (∀ e, fs.create_dir temp = .error e → mktemp fs temp = fs) ∧
    (∀ fs2, fs.create_dir temp = .ok fs2 → mktemp fs temp = fs2) := by
  refine ⟨?_, ?_, ?_⟩
  · intro h
    obtain ⟨e, he⟩ := create_dir_exists_error fs temp h
    unfold mktemp
    rw [he]
  · intro e he
    unfold mktemp
    rw [he]
  · intro fs2 h2
    unfold mktemp
    rw [h2]

/-- **C5** (witness): on a filesystem where `tmp` already exists, `mktemp`
returns it unchanged. -/
theorem mktemp_swallows_failures_witness :
    mktemp ⟨[], [relp [Comp.normal "tmp"]], []⟩ (relp [Comp.normal "tmp"]) =
      ⟨[], [relp [Comp.normal "tmp"]], []⟩ :=
  (mktemp_swallows_failures ⟨[], [relp [Comp.normal "tmp"]], []⟩
    (relp [Comp.normal "tmp"])).1 (by decide)

theorem remove_dir_all_missing_error (fs : FS) (p : RPath)
    (h : fs.dirs.contains p = false) : ∃ e, fs.remove_dir_all p = .error e := by
  unfold FS.remove_dir_all
  by_cases hl : fs.isLocked p = true
  · exact ⟨.other, by simp [hl]⟩
  · simp only [Bool.not_eq_true] at hl
    by_cases hf : fs.isFileB p = true
    · exact ⟨.other, by simp [hl, hf]⟩
    · simp only [Bool.not_eq_true] at hf
      have hm : p ∉ fs.dirs := by simpa using h
      exact ⟨.notFound, by simp [hl, hf, hm]⟩

/-- **C8** (confirmed).  `rmtemp` always returns normally (its type has no
error channel): when removal fails for any reason the error is swallowed
and the filesystem is returned unchanged — in particular when the directory
does not exist — and when removal succeeds the removed filesystem is
returned.  Cleanup can therefore never fail the overall command. -/
theorem rmtemp_never_fails (fs : FS) (temp : RPath) :
    (∀ e, fs.remove_dir_all temp = .error e → rmtemp fs temp = fs) ∧
    (fs.dirs.contains temp = false → rmtemp fs temp = fs) ∧
    (∀ fs2, fs.remove_dir_all temp = .ok fs2 → rmtemp fs temp = fs2) := by
  refine ⟨?_, ?_, ?_⟩
  · intro e he
    unfold rmtemp
    rw [he]
  · intro h
    obtain ⟨e, he⟩ := remove_dir_all_missing_error fs temp h
    unfold rmtemp
    rw [he]
  · intro fs2 h2
    unfold rmtemp
    rw [h2]

/-- **C8** (witness): removing a scratch directory that does not exist
returns the world unchanged. -/
theorem rmtemp_never_fails_witness :
    rmtemp ⟨[], [], []⟩ (relp [Comp.normal "tmp"]) = ⟨[], [], []⟩ :=
  (rmtemp_never_fails ⟨[], [], []⟩ (relp [Comp.normal "tmp"])).2.1 (by decide)

/-- **C3** (confirmed).  The child command `run_cargo_build` constructs is
exactly `cargo [+toolchain] run --manifest-path <project>/Cargo.toml
[<cargo_option tokens>] [--release] -- <program_args>`: the optional
`+`-prefixed toolchain leads, the extra-options string is split on ASCII
whitespace and appended verbatim, `--release` appears only when the release
flag is set, and everything after the `--` separator is the trailing
program arguments, unmodified. -/
theorem run_cargo_build_argument_shape (toolchain : Option String)
    (project : RPath) (release : Bool) (cargo_option : Option String)
    (program_args : List String) :
    build_cargo_command toolchain project release cargo_option program_args =
      ⟨"cargo",
        (match toolchain with
          | some t => ["+" ++ t]
          | none => []) ++
        (["run", "--manifest-path",
            (project.join (relp [Comp.normal "Cargo.toml"])).render] ++
        ((match cargo_option with
            | some o => split_ascii_whitespace o
            | none => []) ++
        ((if release then ["--release"] else []) ++
        ("--" :: program_args))))⟩ := by
  cases toolchain <;> cases cargo_option <;> cases release <;>
    simp [build_cargo_command, Cmd.arg, Cmd.argList]

/-- **C4** (confirmed).  `run_cargo_build` returns the child's raw exit
status as a success value whenever the child could be launched — a nonzero
status is not an error — and returns a distinct error value exactly when
launching the child fails.  (The blocking wait itself is outside the model;
the environment hands back the status of the already-finished child.) -/
theorem run_cargo_build_exit_status (env : ProcEnv) (toolchain : Option String)
    (project : RPath) (release : Bool) (cargo_option : Option String)
    (program_args : List String) :
    (∀ code : Int,
        env.launch (build_cargo_command toolchain project release cargo_option
          program_args) = .ok code →
        run_cargo_build env toolchain project release cargo_option
          program_args = .ok code) ∧
    (∀ e : IoErrorKind,
        env.launch (build_cargo_command toolchain project release cargo_option
          program_args) = .error e →
        run_cargo_build env toolchain project release cargo_option
          program_args = .error (.io e)) := by
  constructor
  · intro code h
    unfold run_cargo_build
    rw [h]
  · intro e h
    unfold run_cargo_build
    rw [h]

/-- **C4** (witness): a child that exits with status 42 yields `.ok 42`. -/
theorem run_cargo_build_exit_status_witness :
    run_cargo_build ⟨fun _ => .ok 42⟩ none (relp [Comp.normal "p"]) false none
      [] = .ok 42 :=
  (run_cargo_build_exit_status ⟨fun _ => .ok 42⟩ none (relp [Comp.normal "p"])
    false none []).1 42 rfl

/-- **C6** (counterexample).  The guard in `copy_project` is `to.is_dir()`,
not existence: on a destination that already exists as a regular *file*,
`copy_project` does not fail with a path-exists error — it runs `cp` and
returns its status — contradicting the claim that it fails whenever the
destination path already exists. -/
theorem copy_project_file_destination_counterexample :
    FS.isFileB ⟨[(relp [Comp.normal "dest"], 7)], [], []⟩
        (relp [Comp.normal "dest"]) = true ∧
      copy_project
          ⟨⟨[(relp [Comp.normal "dest"], 7)], [], []⟩,
            fun _ => .ok (1, ⟨[(relp [Comp.normal "dest"], 7)], [], []⟩)⟩
          (relp [Comp.normal "proj"]) (relp [Comp.normal "dest"]) =
        (.ok 1, ⟨[(relp [Comp.normal "dest"], 7)], [], []⟩) := by
  exact ⟨by decide, by decide⟩

/-- **C6** (amended).  `copy_project` fails with a path-exists error,
without running the copy command and leaving the world unchanged, whenever
the destination path already exists *as a directory* (an existing plain
file at the destination is not detected by the guard). -/
theorem copy_project_guards_directory_destination (env : CpEnv)
    (fromPath toPath : RPath) (h : env.fs.isDirB toPath = true) :
    copy_project env fromPath toPath =
      (.error (.pathExistError toPath), env.fs) := by
  unfold copy_project
  simp [h]

/-- **C6** (witness): exporting onto an existing directory fails with the
path-exists error and changes nothing. -/
theorem copy_project_guards_directory_destination_witness :
    copy_project
        ⟨⟨[], [relp [Comp.normal "dest"]], []⟩,
          fun _ => .ok (0, ⟨[], [relp [Comp.normal "dest"]], []⟩)⟩
        (relp [Comp.normal "proj"]) (relp [Comp.normal "dest"]) =
      (.error (.pathExistError (relp [Comp.normal "dest"])),
        ⟨[], [relp [Comp.normal "dest"]], []⟩) :=
  copy_project_guards_directory_destination
    ⟨⟨[], [relp [Comp.normal "dest"]], []⟩,
      fun _ => .ok (0, ⟨[], [relp [Comp.normal "dest"]], []⟩)⟩
    (relp [Comp.normal "proj"]) (relp [Comp.normal "dest"]) (by decide)

/-- **C10** (confirmed).  When the destination is not a pre-existing
directory and the `cp` child launches and finishes, `copy_project`
`unwrap`s the canonicalization of the destination: if the destination still
does not exist afterwards (for example because the source did not exist and
`cp` created nothing), the call panics instead of returning an error; the
non-panicking success path is taken exactly when the destination exists
after `cp` returns. -/
theorem copy_project_panics_on_missing_destination (env : CpEnv)
    (fromPath toPath : RPath) (status : Int) (fs2 : FS)
    (hdir : env.fs.isDirB toPath = false)
    (hcp : env.runCp ⟨"cp", ["-R", fromPath.render, toPath.render]⟩ =
      .ok (status, fs2)) :
    (fs2.isFileB toPath = false → fs2.isDirB toPath = false →
        copy_project env fromPath toPath = (.panicked, fs2)) ∧
    (fs2.isFileB toPath = true ∨ fs2.isDirB toPath = true →
        copy_project env fromPath toPath = (.ok status, fs2)) := by
  constructor
  · intro h1 h2
    unfold copy_project
    simp [hdir, hcp, canonicalize, h1, h2]
  · intro h
    unfold copy_project
    rcases h with h | h <;> simp [hdir, hcp, canonicalize, h]

/-- **C10** (witness): with a missing source, `cp` exits without creating
the destination and `copy_project` panics. -/
theorem copy_project_panics_on_missing_destination_witness :
    copy_project ⟨⟨[], [], []⟩, fun _ => .ok (1, ⟨[], [], []⟩)⟩
        (relp [Comp.normal "proj"]) (relp [Comp.normal "out"]) =
      (.panicked, ⟨[], [], []⟩) :=
  (copy_project_panics_on_missing_destination
    ⟨⟨[], [], []⟩, fun _ => .ok (1, ⟨[], [], []⟩)⟩
    (relp [Comp.normal "proj"]) (relp [Comp.normal "out"]) 1 ⟨[], [], []⟩
    (by decide) rfl).1 (by decide) (by decide)

theorem contains_eq_decide_mem (l : List RPath) (p : RPath) :
    l.contains p = decide (p ∈ l) := by
  simp [List.contains]

theorem create_dir_all_ok_files (fs : FS) (p : RPath) (fs2 : FS)
    (h : fs.create_dir_all p = .ok fs2) : fs2.files = fs.files := by
  unfold FS.create_dir_all at h
  split at h
  · exact absurd h (by simp)
  · simp only [Except.ok.injEq] at h
    subst h
    rfl

theorem create_dir_all_ok_dirs (fs : FS) (p : RPath) (fs2 : FS)
    (h : fs.create_dir_all p = .ok fs2) :
    fs2.dirs = fs.dirs ++ p.ancestors.filter fun q => ¬fs.isDirB q := by
  unfold FS.create_dir_all at h
  split at h
  · exact absurd h (by simp)
  · simp only [Except.ok.injEq] at h
    subst h
    rfl

theorem self_mem_ancestors (p : RPath) : p ∈ p.ancestors := by
  unfold RPath.ancestors
  refine List.mem_map.mpr ⟨p.comps.length, ?_, ?_⟩
  · exact List.mem_range.mpr (Nat.lt_succ_self _)
  · simp

theorem isDirB_of_dirs_suffix (fs : FS) (extra : List RPath) (q : RPath)
    (h : fs.isDirB q = true) :
    FS.isDirB { fs with dirs := fs.dirs ++ extra } q = true := by
  unfold FS.isDirB at h ⊢
  rcases Bool.or_eq_true_iff.mp h with h | h
  · simp [h]
  · simp only [contains_eq_decide_mem, decide_eq_true_eq] at h ⊢
    simp [h]

theorem create_dir_all_ok_self (fs : FS) (p : RPath) (fs2 : FS)
    (h : fs.create_dir_all p = .ok fs2) : fs2.isDirB p = true := by
  by_cases hd : fs.isDirB p = true
  · have hdirs := create_dir_all_ok_dirs fs p fs2 h
    have : fs2 = { fs2 with dirs := fs2.dirs } := rfl
    unfold FS.isDirB at hd ⊢
    rcases Bool.or_eq_true_iff.mp hd with h2 | h2
    · simp [h2]
    · rw [hdirs]
      simp only [contains_eq_decide_mem, decide_eq_true_eq] at h2 ⊢
      simp [h2]
  · have hdirs := create_dir_all_ok_dirs fs p fs2 h
    unfold FS.isDirB
    rw [hdirs]
    simp only [Bool.or_eq_true, contains_eq_decide_mem,
      decide_eq_true_eq]
    right
    refine List.mem_append.mpr (Or.inr ?_)
    refine List.mem_filter.mpr ⟨self_mem_ancestors p, ?_⟩
    simp [hd]

theorem create_dir_all_ok_mono (fs : FS) (p : RPath) (fs2 : FS) (q : RPath)
    (h : fs.create_dir_all p = .ok fs2) (hq : fs.isDirB q = true) :
    fs2.isDirB q = true := by
  have hdirs := create_dir_all_ok_dirs fs p fs2 h
  unfold FS.isDirB at hq ⊢
  rw [hdirs]
  rcases Bool.or_eq_true_iff.mp hq with h2 | h2
  · simp [h2]
  · simp only [contains_eq_decide_mem, decide_eq_true_eq] at h2 ⊢
    simp [h2]

theorem lookupFile_setFile (fs : FS) (p : RPath) (d : Nat) (q : RPath) :
    (fs.setFile p d).lookupFile q =
      if q.comps.isEmpty then none
      else if q = p then some d else fs.lookupFile q := by
  by_cases hq : q.comps.isEmpty = true
  · simp [FS.lookupFile, FS.setFile, hq]
  · simp only [Bool.not_eq_true] at hq
    by_cases hpq : q = p
    · subst hpq
      simp [FS.lookupFile, FS.setFile, hq, List.find?_cons]
    · have hne : ¬(p = q) := fun h2 => hpq h2.symm
      simp [FS.lookupFile, FS.setFile, hq, List.find?_cons, hpq, hne]

theorem isFileB_setFile_mono (fs : FS) (p : RPath) (d : Nat) (q : RPath)
    (h : fs.isFileB q = true) : (fs.setFile p d).isFileB q = true := by
  unfold FS.isFileB at h ⊢
  rw [lookupFile_setFile]
  by_cases hq : q.comps.isEmpty = true
  · rw [FS.lookupFile] at h
    simp [hq] at h
  · by_cases hpq : q = p
    · subst hpq
      simp [hq]
    · simp [hq, hpq, h]

theorem isFileB_setFile_self (fs : FS) (p : RPath) (d : Nat)
    (h : p.comps.isEmpty = false) : (fs.setFile p d).isFileB p = true := by
  unfold FS.isFileB
  rw [lookupFile_setFile]
  simp [h]

theorem isFileB_setFile_cases (fs : FS) (p : RPath) (d : Nat) (q : RPath)
    (h : (fs.setFile p d).isFileB q = true) :
    q = p ∨ fs.isFileB q = true := by
  unfold FS.isFileB at h
  rw [lookupFile_setFile] at h
  by_cases hq : q.comps.isEmpty = true
  · simp [hq] at h
  · by_cases hpq : q = p
    · exact Or.inl hpq
    · simp only [hq, hpq, if_false, Bool.false_eq_true] at h
      exact Or.inr h

theorem copyFile_ok (fs : FS) (src dst : RPath) (fs2 : FS)
    (h : fs.copyFile src dst = .ok fs2) :
    ∃ d, fs.lookupFile src = some d ∧ fs2 = fs.setFile dst d := by
  unfold FS.copyFile at h
  split at h
  · exact absurd h (by simp)
  · split at h
    · exact absurd h (by simp)
    · rename_i d heq
      split at h
      · exact absurd h (by simp)
      · split at h
        · exact absurd h (by simp)
        · exact ⟨d, heq, (Except.ok.inj h).symm⟩

theorem copyFile_ok_src_comps (fs : FS) (src dst : RPath) (fs2 : FS)
    (h : fs.copyFile src dst = .ok fs2) : src.comps.isEmpty = false := by
  obtain ⟨d, hd, _⟩ := copyFile_ok fs src dst fs2 h
  unfold FS.lookupFile at hd
  by_cases hq : src.comps.isEmpty = true
  · simp [hq] at hd
  · simpa using hq

theorem stepCreateDirAll_log (s : FsState) (p : RPath) :
    (stepCreateDirAll s p).1.log = s.log ++ [FsOp.createDirAll p] := by
  unfold stepCreateDirAll
  rcases h : s.fs.create_dir_all p with e | fs2 <;> simp [h]

theorem stepCreateDirAll_files (s : FsState) (p : RPath) :
    (stepCreateDirAll s p).1.fs.files = s.fs.files := by
  unfold stepCreateDirAll
  rcases h : s.fs.create_dir_all p with e | fs2
  · simp
  · simpa using (create_dir_all_ok_files s.fs p fs2 h)

theorem stepCreateDirAll_isDirB_mono (s : FsState) (p q : RPath)
    (h : s.fs.isDirB q = true) : (stepCreateDirAll s p).1.fs.isDirB q = true := by
  unfold stepCreateDirAll
  rcases h2 : s.fs.create_dir_all p with e | fs2
  · simpa using h
  · simpa using create_dir_all_ok_mono s.fs p fs2 q h2 h

theorem stepCreateDirAll_ok (s : FsState) (p : RPath) (s2 : FsState)
    (h : stepCreateDirAll s p = (s2, .ok ())) :
    s.fs.create_dir_all p = .ok s2.fs ∧
      s2.log = s.log ++ [FsOp.createDirAll p] := by
  unfold stepCreateDirAll at h
  rcases h2 : s.fs.create_dir_all p with e | fs2 <;> rw [h2] at h
  · simp at h
  · simp only [Prod.mk.injEq] at h
    obtain ⟨h3, _⟩ := h
    subst h3
    exact ⟨rfl, rfl⟩

theorem stepCopy_log (s : FsState) (src dst : RPath) :
    (stepCopy s src dst).1.log = s.log ++ [FsOp.copyFile src dst] := by
  unfold stepCopy
  rcases h : s.fs.copyFile src dst with e | fs2 <;> simp [h]

theorem stepCopy_ok (s : FsState) (src dst : RPath) (s2 : FsState)
    (h : stepCopy s src dst = (s2, .ok ())) :
    s.fs.copyFile src dst = .ok s2.fs ∧
      s2.log = s.log ++ [FsOp.copyFile src dst] := by
  unfold stepCopy at h
  rcases h2 : s.fs.copyFile src dst with e | fs2 <;> rw [h2] at h
  · simp at h
  · simp only [Prod.mk.injEq] at h
    obtain ⟨h3, _⟩ := h
    subst h3
    exact ⟨rfl, rfl⟩

theorem stepCopy_error (s : FsState) (src dst : RPath) (s2 : FsState)
    (e : IoErrorKind) (h : stepCopy s src dst = (s2, .error e)) :
    s2.fs = s.fs ∧ s2.log = s.log ++ [FsOp.copyFile src dst] := by
  unfold stepCopy at h
  rcases h2 : s.fs.copyFile src dst with e2 | fs2 <;> rw [h2] at h
  · simp only [Prod.mk.injEq] at h
    obtain ⟨h3, _⟩ := h
    subst h3
    exact ⟨rfl, rfl⟩
  · simp at h

theorem ensureParent_files (s : FsState) (dst : RPath) :
    (ensureParent s dst).fs.files = s.fs.files := by
  unfold ensureParent
  rcases h : dst.parent with _ | par
  · rfl
  · exact stepCreateDirAll_files s par

theorem ensureParent_isFileB (s : FsState) (dst : RPath) (q : RPath) :
    (ensureParent s dst).fs.isFileB q = s.fs.isFileB q := by
  unfold FS.isFileB FS.lookupFile
  rw [ensureParent_files]

theorem ensureParent_log (s : FsState) (dst : RPath) :
    ∃ tail, (ensureParent s dst).log = s.log ++ tail := by
  unfold ensureParent
  rcases h : dst.parent with _ | par
  · exact ⟨[], by simp⟩
  · exact ⟨[FsOp.createDirAll par], stepCreateDirAll_log s par⟩

theorem ensureParent_isDirB_mono (s : FsState) (dst : RPath) (q : RPath)
    (h : s.fs.isDirB q = true) : (ensureParent s dst).fs.isDirB q = true := by
  unfold ensureParent
  rcases h2 : dst.parent with _ | par
  · exact h
  · exact stepCreateDirAll_isDirB_mono s par q h

theorem isDirB_setFile (fs : FS) (p : RPath) (d : Nat) (q : RPath) :
    (fs.setFile p d).isDirB q = fs.isDirB q := rfl

theorem copySecondaries_cons (s : FsState) (d b f : RPath) (l : List RPath) :
    copySecondaries s d b (f :: l) =
      match diff_paths f b with
      | none => (s, .error (.diffPathError f))
      | some part =>
        match stepCopy (ensureParent s (d.join part)) f (d.join part) with
        | (s2, .error e) => (s2, .error (.io e))
        | (s2, .ok ()) => copySecondaries s2 d b l := rfl

theorem copySecondaries_log_mono (d b : RPath) (l : List RPath) :
    ∀ s : FsState, ∃ tail, (copySecondaries s d b l).1.log = s.log ++ tail := by
  induction l with
  | nil => exact fun s => ⟨[], by simp [copySecondaries]⟩
  | cons f rest ih =>
    intro s
    rcases hd : diff_paths f b with _ | part
    · exact ⟨[], by simp [copySecondaries, hd]⟩
    · obtain ⟨t1, ht1⟩ := ensureParent_log s (RPath.join d part)
      rcases hc : stepCopy (ensureParent s (RPath.join d part)) f
          (RPath.join d part) with ⟨s2, r2⟩
      cases r2 with
      | error e =>
        obtain ⟨_, hlog⟩ := stepCopy_error _ _ _ _ _ hc
        exact ⟨t1 ++ [FsOp.copyFile f (RPath.join d part)],
          by simp [copySecondaries_cons, hd, hc, hlog, ht1]⟩
      | ok u =>
        cases u
        obtain ⟨_, hlog⟩ := stepCopy_ok _ _ _ _ hc
        obtain ⟨t2, ht2⟩ := ih s2
        exact ⟨(t1 ++ [FsOp.copyFile f (RPath.join d part)]) ++ t2,
          by simp [copySecondaries_cons, hd, hc, ht2, hlog, ht1]⟩

theorem copySecondaries_isDirB_mono (d b : RPath) (l : List RPath) :
    ∀ (s : FsState) (q : RPath), s.fs.isDirB q = true →
      (copySecondaries s d b l).1.fs.isDirB q = true := by
  induction l with
  | nil => exact fun s q h => by simpa [copySecondaries] using h
  | cons f rest ih =>
    intro s q h
    rcases hd : diff_paths f b with _ | part
    · simpa [copySecondaries, hd] using h
    · rcases hc : stepCopy (ensureParent s (RPath.join d part)) f
          (RPath.join d part) with ⟨s2, r2⟩
      have hep : (ensureParent s (RPath.join d part)).fs.isDirB q = true :=
        ensureParent_isDirB_mono s (RPath.join d part) q h
      cases r2 with
      | error e =>
        obtain ⟨hfs, _⟩ := stepCopy_error _ _ _ _ _ hc
        simp only [copySecondaries_cons, hd, hc]
        rw [hfs]
        exact hep
      | ok u =>
        cases u
        obtain ⟨hcp, _⟩ := stepCopy_ok _ _ _ _ hc
        obtain ⟨dd, _, hset⟩ := copyFile_ok _ _ _ _ hcp
        have h2 : s2.fs.isDirB q = true := by
          rw [hset, isDirB_setFile]
          exact hep
        simp only [copySecondaries_cons, hd, hc]
        exact ih s2 q h2

theorem copySecondaries_isFileB_mono (d b : RPath) (l : List RPath) :
    ∀ (s : FsState) (q : RPath), s.fs.isFileB q = true →
      (copySecondaries s d b l).1.fs.isFileB q = true := by
  induction l with
  | nil => exact fun s q h => by simpa [copySecondaries] using h
  | cons f rest ih =>
    intro s q h
    rcases hd : diff_paths f b with _ | part
    · simpa [copySecondaries, hd] using h
    · rcases hc : stepCopy (ensureParent s (RPath.join d part)) f
          (RPath.join d part) with ⟨s2, r2⟩
      have hep : (ensureParent s (RPath.join d part)).fs.isFileB q = true := by
        rw [ensureParent_isFileB]
        exact h
      cases r2 with
      | error e =>
        obtain ⟨hfs, _⟩ := stepCopy_error _ _ _ _ _ hc
        simp only [copySecondaries_cons, hd, hc]
        rw [hfs]
        exact hep
      | ok u =>
        cases u
        obtain ⟨hcp, _⟩ := stepCopy_ok _ _ _ _ hc
        obtain ⟨dd, _, hset⟩ := copyFile_ok _ _ _ _ hcp
        have h2 : s2.fs.isFileB q = true := by
          rw [hset]
          exact isFileB_setFile_mono _ _ _ _ hep
        simp only [copySecondaries_cons, hd, hc]
        exact ih s2 q h2

theorem copySecondaries_append (d b : RPath) (l1 l2 : List RPath) :
    ∀ s, copySecondaries s d b (l1 ++ l2) =
      match copySecondaries s d b l1 with
      | (s1, .ok _) => copySecondaries s1 d b l2
      | (s1, .error e) => (s1, .error e) := by
  induction l1 with
  | nil => intro s; simp [copySecondaries]
  | cons f rest ih =>
    intro s
    rcases hd : diff_paths f b with _ | part
    · simp [copySecondaries_cons, hd]
    · rcases hc : stepCopy (ensureParent s (RPath.join d part)) f
          (RPath.join d part) with ⟨s2, r2⟩
      cases r2 with
      | error e =>
        simp [List.cons_append, copySecondaries_cons, hd, hc]
      | ok u =>
        cases u
        simp only [List.cons_append, copySecondaries_cons, hd, hc]
        exact ih s2

theorem copySecondaries_ok_ops (d b : RPath) (l : List RPath) :
    ∀ s s2 : FsState, copySecondaries s d b l = (s2, .ok ()) →
      ∀ f ∈ l, ∃ part, diff_paths f b = some part ∧
        FsOp.copyFile f (RPath.join d part) ∈ s2.log := by
  induction l with
  | nil => intro s s2 _ f hf; exact absurd hf (List.not_mem_nil f)
  | cons f0 rest ih =>
    intro s s2 h f hf
    rcases hd : diff_paths f0 b with _ | part0
    · rw [copySecondaries_cons, hd] at h
      simp at h
    · rcases hc : stepCopy (ensureParent s (RPath.join d part0)) f0
          (RPath.join d part0) with ⟨s2a, r2⟩
      cases r2 with
      | error e =>
        rw [copySecondaries_cons, hd] at h
        simp only [hc] at h
        simp at h
      | ok u =>
        cases u
        rw [copySecondaries_cons, hd] at h
        simp only [hc] at h
        rcases List.mem_cons.mp hf with rfl | hf2
        · obtain ⟨_, hlog⟩ := stepCopy_ok _ _ _ _ hc
          obtain ⟨tail, htail⟩ := copySecondaries_log_mono d b rest s2a
          refine ⟨part0, hd, ?_⟩
          have hmem : FsOp.copyFile f (RPath.join d part0) ∈ s2a.log := by
            rw [hlog]
            simp
          rw [h] at htail
          have htail2 : s2.log = s2a.log ++ tail := htail
          rw [htail2]
          exact List.mem_append.mpr (Or.inl hmem)
        · exact ih s2a s2 h f hf2

theorem copySecondaries_ok_new_files (d b : RPath) (l : List RPath) :
    ∀ s s2 : FsState, copySecondaries s d b l = (s2, .ok ()) →
      ∀ p, s2.fs.isFileB p = true → s.fs.isFileB p = false →
        ∃ f part, f ∈ l ∧ diff_paths f b = some part ∧ p = RPath.join d part := by
  induction l with
  | nil =>
    intro s s2 h p h1 h2
    rw [copySecondaries] at h
    obtain ⟨rfl, -⟩ : s = s2 ∧ True := by
      simpa using congrArg Prod.fst h
    rw [h1] at h2
    exact absurd h2 (by simp)
  | cons f0 rest ih =>
    intro s s2 h p h1 h2
    rcases hd : diff_paths f0 b with _ | part0
    · rw [copySecondaries_cons, hd] at h
      simp at h
    · rcases hc : stepCopy (ensureParent s (RPath.join d part0)) f0
          (RPath.join d part0) with ⟨s2a, r2⟩
      cases r2 with
      | error e =>
        rw [copySecondaries_cons, hd] at h
        simp only [hc] at h
        simp at h
      | ok u =>
        cases u
        rw [copySecondaries_cons, hd] at h
        simp only [hc] at h
        obtain ⟨hcp, _⟩ := stepCopy_ok _ _ _ _ hc
        obtain ⟨dd, _, hset⟩ := copyFile_ok _ _ _ _ hcp
        by_cases hmid : s2a.fs.isFileB p = true
        · have hmid2 := hset ▸ hmid
          rcases isFileB_setFile_cases _ _ _ _ hmid2 with rfl | hold
          · exact ⟨f0, part0, List.mem_cons_self f0 rest, hd, rfl⟩
          · rw [ensureParent_isFileB] at hold
            rw [hold] at h2
            exact absurd h2 (by simp)
        · simp only [Bool.not_eq_true] at hmid
          obtain ⟨f, part, hf, hdf, hp⟩ := ih s2a s2 h p h1 hmid
          exact ⟨f, part, List.mem_cons_of_mem f0 hf, hdf, hp⟩

theorem isFileB_congr (fs1 fs2 : FS) (h : fs1.files = fs2.files) (q : RPath) :
    fs1.isFileB q = fs2.isFileB q := by
  unfold FS.isFileB FS.lookupFile
  rw [h]

theorem parent_isSome_of_comps (src : RPath) (hc : src.comps.isEmpty = false) :
    ∃ base, src.parent = some base := by
  unfold RPath.parent
  rcases h2 : src.comps with _ | ⟨c, cs⟩
  · rw [h2] at hc
    simp at hc
  · exact ⟨⟨src.absolute, src.comps.dropLast⟩, by rw [h2]⟩

theorem copy_sources_cons (s : FsState) (temp first : RPath)
    (rest : List RPath) :
    copy_sources s temp (first :: rest) =
      match stepCreateDirAll s (temp.join srcDirPath) with
      | (s1, .error e) => (s1, .error (.io e))
      | (s1, .ok ()) =>
        match stepCopy s1 first (RPath.join (temp.join srcDirPath) mainRsPath) with
        | (s2, .error e) => (s2, .error (.io e))
        | (s2, .ok ()) =>
          match first.parent with
          | none => (s2, .ok ())
          | some base => copySecondaries s2 (temp.join srcDirPath) base rest := rfl

/-- **C1** (confirmed).  For a non-empty source list, whenever
`copy_sources` succeeds it has ensured the `src` subdirectory of the
scratch root exists, issued the copy of the first file to the fixed entry
filename `src/main.rs`, and issued, for each remaining file, a copy to the
destination computed by `diff_paths` relative to the entry point's parent
directory; and when some remaining file has no such relative path (the
earlier files having been placed), it fails with `DiffPathError` naming
that file. -/
theorem copy_sources_entry_and_relative_placement
    (s : FsState) (temp first : RPath) (rest : List RPath) :
    (∀ s2 : FsState, copy_sources s temp (first :: rest) = (s2, .ok ()) →
      s2.fs.isDirB (temp.join srcDirPath) = true ∧
      FsOp.copyFile first (RPath.join (temp.join srcDirPath) mainRsPath) ∈
        s2.log ∧
      ∃ base, first.parent = some base ∧
        ∀ f ∈ rest, ∃ part, diff_paths f base = some part ∧
          FsOp.copyFile f (RPath.join (temp.join srcDirPath) part) ∈ s2.log) ∧
    (∀ (base f : RPath) (pre post : List RPath) (s1 : FsState),
      first.parent = some base →
      diff_paths f base = none →
      copy_sources s temp (first :: pre) = (s1, .ok ()) →
      copy_sources s temp (first :: (pre ++ f :: post)) =
        (s1, .error (.diffPathError f))) := by
  constructor
  · intro s2 h
    rw [copy_sources_cons] at h
    rcases hA : stepCreateDirAll s (temp.join srcDirPath) with ⟨sA, rA⟩
    cases rA with
    | error e =>
      simp only [hA] at h
      simp at h
    | ok u =>
      cases u
      simp only [hA] at h
      rcases hB : stepCopy sA first (RPath.join (temp.join srcDirPath) mainRsPath)
        with ⟨sB, rB⟩
      cases rB with
      | error e =>
        simp only [hB] at h
        simp at h
      | ok u =>
        cases u
        simp only [hB] at h
        obtain ⟨hcopy, hlogB⟩ := stepCopy_ok _ _ _ _ hB
        have hcomps := copyFile_ok_src_comps _ _ _ _ hcopy
        obtain ⟨base0, hbase⟩ := parent_isSome_of_comps first hcomps
        simp only [hbase] at h
        obtain ⟨hcda, hlogA⟩ := stepCreateDirAll_ok s _ sA hA
        have hdirA : sA.fs.isDirB (temp.join srcDirPath) = true :=
          create_dir_all_ok_self _ _ _ hcda
        obtain ⟨dd, _, hset⟩ := copyFile_ok _ _ _ _ hcopy
        have hdirB : sB.fs.isDirB (temp.join srcDirPath) = true := by
          rw [hset, isDirB_setFile]
          exact hdirA
        have hdir2 : s2.fs.isDirB (temp.join srcDirPath) = true := by
          have h9 := copySecondaries_isDirB_mono (temp.join srcDirPath) base0
            rest sB (temp.join srcDirPath) hdirB
          rw [h] at h9
          exact h9
        have hmemB : FsOp.copyFile first
            (RPath.join (temp.join srcDirPath) mainRsPath) ∈ sB.log := by
          rw [hlogB]
          simp
        have hmem2 : FsOp.copyFile first
            (RPath.join (temp.join srcDirPath) mainRsPath) ∈ s2.log := by
          obtain ⟨tail, htail⟩ :=
            copySecondaries_log_mono (temp.join srcDirPath) base0 rest sB
          rw [h] at htail
          have htail2 : s2.log = sB.log ++ tail := htail
          rw [htail2]
          exact List.mem_append.mpr (Or.inl hmemB)
        exact ⟨hdir2, hmem2, base0, hbase,
          copySecondaries_ok_ops (temp.join srcDirPath) base0 rest sB s2 h⟩
  · intro base f pre post s1 hbase hdiff hpre
    rw [copy_sources_cons] at hpre ⊢
    rcases hA : stepCreateDirAll s (temp.join srcDirPath) with ⟨sA, rA⟩
    cases rA with
    | error e =>
      simp only [hA] at hpre
      simp at hpre
    | ok u =>
      cases u
      simp only [hA] at hpre ⊢
      rcases hB : stepCopy sA first (RPath.join (temp.join srcDirPath) mainRsPath)
        with ⟨sB, rB⟩
      cases rB with
      | error e =>
        simp only [hB] at hpre
        simp at hpre
      | ok u =>
        cases u
        simp only [hB] at hpre ⊢
        simp only [hbase] at hpre ⊢
        rw [copySecondaries_append]
        simp only [hpre]
        rw [copySecondaries_cons]
        simp [hdiff]

/-- **C1** (witness): with entry point `a/main.rs` and secondary
`a/b/util.rs`, a successful run has issued the copy of the secondary file
to `tmp/play/src/b/util.rs`. -/
theorem copy_sources_entry_and_relative_placement_witness :
    FsOp.copyFile utilPath
        (RPath.join (RPath.join scratchPath srcDirPath)
          (relp [Comp.normal "b", Comp.normal "util.rs"])) ∈
      (copy_sources demoState scratchPath [entryPath, utilPath]).1.log := by
  obtain ⟨-, -, base, hbase, hall⟩ :=
    (copy_sources_entry_and_relative_placement demoState scratchPath entryPath
      [utilPath]).1 (copy_sources demoState scratchPath [entryPath, utilPath]).1
      (by decide)
  obtain ⟨part, hdp, hmem⟩ := hall utilPath (by simp)
  have hb2 : entryPath.parent = some (relp [Comp.normal "a"]) := by decide
  rw [hb2] at hbase
  obtain rfl := Option.some.inj hbase
  have hd2 : diff_paths utilPath (relp [Comp.normal "a"]) =
      some (relp [Comp.normal "b", Comp.normal "util.rs"]) := by decide
  rw [hd2] at hdp
  obtain rfl := Option.some.inj hdp
  exact hmem

/-- **C7** (confirmed).  Inside `copy_sources`, when the copy of a
secondary file fails (the earlier sources having been placed
successfully), the whole placement aborts with that first error wrapped as
an I/O error — the files after it are not attempted — and every file
present before the call is still present in the final world: nothing is
rolled back. -/
theorem copy_sources_first_error_abort
    (s s1 s2 : FsState) (temp first base f part : RPath)
    (pre post : List RPath) (e : IoErrorKind)
    (hbase : first.parent = some base)
    (hpre : copy_sources s temp (first :: pre) = (s1, .ok ()))
    (hdiff : diff_paths f base = some part)
    (hcopy : stepCopy (ensureParent s1 (RPath.join (temp.join srcDirPath) part))
        f (RPath.join (temp.join srcDirPath) part) = (s2, .error e)) :
    copy_sources s temp (first :: (pre ++ f :: post)) =
      (s2, .error (.io e)) ∧
    ∀ p, s.fs.isFileB p = true → s2.fs.isFileB p = true := by
  rw [copy_sources_cons] at hpre ⊢
  rcases hA : stepCreateDirAll s (temp.join srcDirPath) with ⟨sA, rA⟩
  cases rA with
  | error e2 =>
    simp only [hA] at hpre
    simp at hpre
  | ok u =>
    cases u
    simp only [hA] at hpre ⊢
    rcases hB : stepCopy sA first (RPath.join (temp.join srcDirPath) mainRsPath)
      with ⟨sB, rB⟩
    cases rB with
    | error e2 =>
      simp only [hB] at hpre
      simp at hpre
    | ok u =>
      cases u
      simp only [hB] at hpre ⊢
      simp only [hbase] at hpre ⊢
      constructor
      · rw [copySecondaries_append]
        simp only [hpre]
        rw [copySecondaries_cons]
        simp [hdiff, hcopy]
      · intro p hp
        have hAfiles : sA.fs.files = s.fs.files := by
          have h9 := stepCreateDirAll_files s (temp.join srcDirPath)
          rw [hA] at h9
          exact h9
        have h1 : sA.fs.isFileB p = true := by
          rw [isFileB_congr sA.fs s.fs hAfiles]
          exact hp
        obtain ⟨hcp, _⟩ := stepCopy_ok _ _ _ _ hB
        obtain ⟨dd, _, hset⟩ := copyFile_ok _ _ _ _ hcp
        have h2 : sB.fs.isFileB p = true := by
          rw [hset]
          exact isFileB_setFile_mono _ _ _ _ h1
        have h3 : s1.fs.isFileB p = true := by
          have h9 := copySecondaries_isFileB_mono (temp.join srcDirPath) base
            pre sB p h2
          rw [hpre] at h9
          exact h9
        obtain ⟨hfs, _⟩ := stepCopy_error _ _ _ _ _ hcopy
        rw [hfs, ensureParent_isFileB]
        exact h3

/-- **C7** (witness): with entry `a/main.rs` placed and a missing secondary
`a/gone.rs`, the placement aborts with the copy's `NotFound` error, and the
original sources are still present afterwards. -/
theorem copy_sources_first_error_abort_witness :
    copy_sources demoState scratchPath [entryPath, gonePath, utilPath] =
      ((stepCopy (ensureParent (copy_sources demoState scratchPath [entryPath]).1
          (RPath.join (scratchPath.join srcDirPath) (relp [Comp.normal "gone.rs"])))
          gonePath
          (RPath.join (scratchPath.join srcDirPath) (relp [Comp.normal "gone.rs"]))).1,
        .error (.io .notFound)) ∧
      (stepCopy (ensureParent (copy_sources demoState scratchPath [entryPath]).1
          (RPath.join (scratchPath.join srcDirPath) (relp [Comp.normal "gone.rs"])))
          gonePath
          (RPath.join (scratchPath.join srcDirPath)
            (relp [Comp.normal "gone.rs"]))).1.fs.isFileB entryPath = true := by
  have h := copy_sources_first_error_abort demoState
    (copy_sources demoState scratchPath [entryPath]).1
    (stepCopy (ensureParent (copy_sources demoState scratchPath [entryPath]).1
        (RPath.join (scratchPath.join srcDirPath) (relp [Comp.normal "gone.rs"])))
        gonePath
        (RPath.join (scratchPath.join srcDirPath) (relp [Comp.normal "gone.rs"]))).1
    scratchPath entryPath (relp [Comp.normal "a"]) gonePath
    (relp [Comp.normal "gone.rs"]) [] [utilPath] .notFound
    (by decide) (by decide) (by decide) (by decide)
  exact ⟨h.1, h.2 entryPath (by decide)⟩

/-- **C9** (confirmed).  After every successful run of `copy_sources` on a
non-empty source list, the fixed entry-point file `src/main.rs` exists in
the scratch tree, and every file the run added is either that entry point
or sits at the destination computed by `diff_paths` relative to the entry
point's original parent directory. -/
theorem copy_sources_tree_invariant (s s2 : FsState) (temp first : RPath)
    (rest : List RPath)
    (h : copy_sources s temp (first :: rest) = (s2, .ok ())) :
    s2.fs.isFileB (RPath.join (temp.join srcDirPath) mainRsPath) = true ∧
    ∀ p, s2.fs.isFileB p = true → s.fs.isFileB p = false →
      p = RPath.join (temp.join srcDirPath) mainRsPath ∨
      ∃ f base part, f ∈ rest ∧ first.parent = some base ∧
        diff_paths f base = some part ∧
        p = RPath.join (temp.join srcDirPath) part := by
  rw [copy_sources_cons] at h
  rcases hA : stepCreateDirAll s (temp.join srcDirPath) with ⟨sA, rA⟩
  cases rA with
  | error e =>
    simp only [hA] at h
    simp at h
  | ok u =>
    cases u
    simp only [hA] at h
    rcases hB : stepCopy sA first (RPath.join (temp.join srcDirPath) mainRsPath)
      with ⟨sB, rB⟩
    cases rB with
    | error e =>
      simp only [hB] at h
      simp at h
    | ok u =>
      cases u
      simp only [hB] at h
      obtain ⟨hcopy, _⟩ := stepCopy_ok _ _ _ _ hB
      obtain ⟨dd, hdd, hset⟩ := copyFile_ok _ _ _ _ hcopy
      have hmain_comps :
          (RPath.join (temp.join srcDirPath) mainRsPath).comps.isEmpty = false := by
        simp [RPath.join, srcDirPath, mainRsPath, relp]
      have hmainB :
          sB.fs.isFileB (RPath.join (temp.join srcDirPath) mainRsPath) = true := by
        rw [hset]
        exact isFileB_setFile_self _ _ _ hmain_comps
      have hAfiles : sA.fs.files = s.fs.files := by
        have h9 := stepCreateDirAll_files s (temp.join srcDirPath)
        rw [hA] at h9
        exact h9
      rcases hP : first.parent with _ | base
      · simp only [hP, Prod.mk.injEq] at h
        obtain ⟨rfl, -⟩ := h
        refine ⟨hmainB, ?_⟩
        intro p h1 h2
        rw [hset] at h1
        rcases isFileB_setFile_cases _ _ _ _ h1 with rfl | hold
        · exact Or.inl rfl
        · rw [isFileB_congr sA.fs s.fs hAfiles] at hold
          rw [hold] at h2
          exact absurd h2 (by simp)
      · simp only [hP] at h
        constructor
        · have h9 := copySecondaries_isFileB_mono (temp.join srcDirPath) base
            rest sB (RPath.join (temp.join srcDirPath) mainRsPath) hmainB
          rw [h] at h9
          exact h9
        · intro p h1 h2
          by_cases hmid : sB.fs.isFileB p = true
          · rw [hset] at hmid
            rcases isFileB_setFile_cases _ _ _ _ hmid with rfl | hold
            · exact Or.inl rfl
            · rw [isFileB_congr sA.fs s.fs hAfiles] at hold
              rw [hold] at h2
              exact absurd h2 (by simp)
          · simp only [Bool.not_eq_true] at hmid
            obtain ⟨f, part, hf, hdf, hp⟩ := copySecondaries_ok_new_files
              (temp.join srcDirPath) base rest sB s2 h p h1 hmid
            exact Or.inr ⟨f, base, part, hf, rfl, hdf, hp⟩

/-- **C9** (witness): after the successful demo run, `tmp/play/src/main.rs`
exists. -/
theorem copy_sources_tree_invariant_witness :
    (copy_sources demoState scratchPath
        [entryPath, utilPath]).1.fs.isFileB
      (RPath.join (scratchPath.join srcDirPath) mainRsPath) = true :=
  (copy_sources_tree_invariant demoState
    (copy_sources demoState scratchPath [entryPath, utilPath]).1 scratchPath
    entryPath [utilPath] (by decide)).1
